import Mathlib

/-!
Shallow embedding of the eventlog-example repository
(`cmd/consumer/main.go`, `cmd/producer/main.go`, `database`, `event`).

The domain logic (event codec, aggregate apply, sync, put/take, validation,
database transactions over the badger key-value store) is transcribed from
the Go source.  The event-log client (`Scan`, `Append`, `TryAppend`,
`VersionInitial`) is an external dependency declared out of scope by the
specification; those operations are modelled from the spec's interface
description (section 6) and are marked as such in their doc comments.

Machine integers: Go `int64` quantities are modelled as `Int`; none of the
verified claims depends on 64-bit overflow behaviour.  The badger store is
modelled extensionally as a duplicate-free association list; stored decimal
strings round-trip through `strconv.ParseInt`, so quantities are kept as
`Int` directly.
-/

namespace EventlogExample

/-- The parsed JSON payload of a wire event: `{object, quantity}`.
Payload parsing itself (encoding/json) is external; payloads are modelled
in already-parsed form. -/
structure Payload where
  object : String
  quantity : Int
deriving DecidableEq

/-- A wire event as delivered by the event log client (`client.Event`):
a log-assigned version, a label and a payload. -/
structure RawEvent where
  version : String
  label : String
  payload : Payload
deriving DecidableEq

/-- Event data sent to the log on append (`client.EventData`): label and
payload, no version (the log assigns one). -/
structure EventData where
  label : String
  payload : Payload
deriving DecidableEq

/-- The typed domain event (`event.Event`). -/
structure Event where
  Operation : String
  Object : String
  Quantity : Int
deriving DecidableEq

/-- The error values produced by the modelled code paths.  All but
`retriesExhausted` correspond to errors of the Go source (sentinel errors
or `fmt.Errorf` values); `retriesExhausted` is the fuel-out artifact of
modelling the unbounded retry loop of the conditional append protocol and
corresponds to no source code path. -/
inductive Err where
  | unknownEventType
  | insuffQuant
  | invalidObject
  | invalidQuantity
  | abortScan
  | retriesExhausted
deriving DecidableEq

/-- `event.Decode`: accepts labels `put`/`take`, setting the operation to
the label and reading object and quantity from the payload; any other
label fails with the unknown-event-type error. -/
def Decode (i : RawEvent) : Except Err Event :=
  if i.label = "put" ∨ i.label = "take" then
    .ok { Operation := i.label, Object := i.payload.object,
          Quantity := i.payload.quantity }
  else
    .error .unknownEventType

/-- `event.Encode`: accepts operations `put`/`take`, serializing object and
quantity as the payload and the operation as the label; any other
operation fails with the unknown-event-type error. -/
def Encode (i : Event) : Except Err EventData :=
  if i.Operation = "put" ∨ i.Operation = "take" then
    .ok { label := i.Operation,
          payload := { object := i.Object, quantity := i.Quantity } }
  else
    .error .unknownEventType

/-- Lookup in the association-list model of the badger store
(first match, as badger keys are unique). -/
def alGet : List (String × Int) → String → Option Int
  | [], _ => none
  | (a, b) :: t, k => if k = a then some b else alGet t k

/-- Replace-or-append, modelling `badger.Txn.Set` extensionally (the
store's key-sorted iteration order is not load-bearing for any verified
claim, so entries are kept in first-insertion order). -/
def alSet : List (String × Int) → String → Int → List (String × Int)
  | [], k, v => [(k, v)]
  | (a, b) :: t, k, v =>
    if k = a then (k, v) :: t else (a, b) :: alSet t k v

/-- Key removal, modelling `badger.Txn.Delete`. -/
def alDelete : List (String × Int) → String → List (String × Int)
  | [], _ => []
  | (a, b) :: t, k => if k = a then alDelete t k else (a, b) :: alDelete t k

/-- The projection database state: the persisted version marker
(key `version`, `""` when never set) and the object entries
(keys `o_<object>`, here with the prefix stripped). -/
structure DBState where
  version : String
  objects : List (String × Int)
deriving DecidableEq

/-- A freshly opened, never-synchronized database. -/
def emptyState : DBState := { version := "", objects := [] }

/-- `Tx.GetQuantity`: the stored quantity of an object, `0` when the key
is absent (`badger.ErrKeyNotFound`). -/
def GetQuantity (s : DBState) (object : String) : Int :=
  (alGet s.objects object).getD 0

/-- `Tx.Set`: update an object entry. -/
def txSet (s : DBState) (object : String) (num : Int) : DBState :=
  { version := s.version, objects := alSet s.objects object num }

/-- `Tx.Delete`: delete an object entry. -/
def txDelete (s : DBState) (object : String) : DBState :=
  { version := s.version, objects := alDelete s.objects object }

/-- `Tx.SetProjectionVersion`: persist the version marker. -/
def SetProjectionVersion (s : DBState) (v : String) : DBState :=
  { version := v, objects := s.objects }

/-- `Consumer.apply` (cmd/consumer/main.go): decode the event, compute the
new quantity from the label, delete the entry when it drops below 1,
store it otherwise, and (via the deferred block, on success only) persist
the event's version as the projection marker.  The final `0` branch
mirrors the Go `switch` without a `default`: unreachable, because `Decode`
only accepts the two labels. -/
def Consumer.apply (s : DBState) (e : RawEvent) : Except Err DBState :=
  match Decode e with
  | .error err => .error err
  | .ok ev =>
    let previousQuantity := GetQuantity s ev.Object
    let newQuantity : Int :=
      if e.label = "take" then previousQuantity - ev.Quantity
      else if e.label = "put" then previousQuantity + ev.Quantity
      else 0
    if newQuantity < 1 then
      .ok (SetProjectionVersion (txDelete s ev.Object) e.version)
    else
      .ok (SetProjectionVersion (txSet s ev.Object newQuantity) e.version)

/-- `Producer.apply` (cmd/producer/main.go): textually identical to
`Consumer.apply` in the source; transcribed separately so that the
agreement of the two replays is a provable statement. -/
def Producer.apply (s : DBState) (e : RawEvent) : Except Err DBState :=
  match Decode e with
  | .error err => .error err
  | .ok ev =>
    let previousQuantity := GetQuantity s ev.Object
    let newQuantity : Int :=
      if e.label = "take" then previousQuantity - ev.Quantity
      else if e.label = "put" then previousQuantity + ev.Quantity
      else 0
    if newQuantity < 1 then
      .ok (SetProjectionVersion (txDelete s ev.Object) e.version)
    else
      .ok (SetProjectionVersion (txSet s ev.Object newQuantity) e.version)

/-- Sequential replay of an event list through `Consumer.apply`,
as performed by the scan callback of the sync loop; the first failing
apply aborts the replay. -/
def Consumer.replay : DBState → List RawEvent → Except Err DBState
  | s, [] => .ok s
  | s, e :: es =>
    match Consumer.apply s e with
    | .error err => .error err
    | .ok s' => Consumer.replay s' es

/-- Sequential replay through `Producer.apply`. -/
def Producer.replay : DBState → List RawEvent → Except Err DBState
  | s, [] => .ok s
  | s, e :: es =>
    match Producer.apply s e with
    | .error err => .error err
    | .ok s' => Producer.replay s' es

/-- One-at-a-time step used by the left-fold formulation of replay. -/
def replayStep (acc : Except Err DBState) (e : RawEvent) : Except Err DBState :=
  match acc with
  | .error err => .error err
  | .ok s => Consumer.apply s e

/-- Replay as a left fold, feeding events one at a time into the
accumulated state. -/
def replayFoldl (s : DBState) (es : List RawEvent) : Except Err DBState :=
  es.foldl replayStep (.ok s)

/-- The quantity the apply step computes for a decoded event:
`Q - quantity` for a take, `Q + quantity` for a put. -/
def newQuantityOf (s : DBState) (ev : Event) : Int :=
  if ev.Operation = "take" then GetQuantity s ev.Object - ev.Quantity
  else if ev.Operation = "put" then GetQuantity s ev.Object + ev.Quantity
  else 0

/-- Modelled from the spec: `InitialVersion()` of the event log client —
the version of the first event of the log, or the empty-log sentinel
`"0"` when the log holds no events. -/
def versionInitial (log : List RawEvent) : String :=
  match log with
  | [] => "0"
  | e :: _ => e.version

/-- Modelled from the spec: the log's current head — the version of the
most recently accepted event, or the empty-log sentinel `"0"`. -/
def headVersion (log : List RawEvent) : String :=
  match log.getLast? with
  | none => "0"
  | some e => e.version

/-- Modelled from the spec: the version the log assigns to the next
accepted event (monotonic, here the successor of the event count). -/
def nextVersion (log : List RawEvent) : String :=
  toString (log.length + 1)

/-- Modelled from the spec: a durable append — the log assigns the next
version to the event data and accepts it at the tail. -/
def appendToLog (log : List RawEvent) (ed : EventData) : List RawEvent :=
  log ++ [{ version := nextVersion log, label := ed.label, payload := ed.payload }]

/-- Modelled from the spec: `Scan(fromVersion, follow := false, onEvent)` —
delivers the events from `fromVersion` onward, inclusive, in log order.
This returns the delivered suffix; the callers fold their callback over
it. -/
def scanFrom (sv : String) : List RawEvent → List RawEvent
  | [] => []
  | e :: es => if e.version = sv then e :: es else scanFrom sv es

/-- The scan callback of `Consumer.Sync`, folded over the delivered
events: an event whose version equals the marker `v` read at the start of
the pass is skipped, any other event is applied (which also persists its
version as the new marker). -/
def scanApplyC (v : String) : List RawEvent → DBState → Except Err DBState
  | [], s => .ok s
  | e :: es, s =>
    if v = e.version then scanApplyC v es s
    else
      match Consumer.apply s e with
      | .error err => .error err
      | .ok s' => scanApplyC v es s'

/-- `Consumer.Sync`: the body of the read-write transaction — read the
marker, fall back to the log's initial version when never synced, stop on
the empty-log sentinel, otherwise scan forward and fold the
skip-or-apply callback.  `DB.WithinTx` commits the transaction on `ok`
and discards it on error. -/
def Consumer.Sync (log : List RawEvent) (s : DBState) : Except Err DBState :=
  let v := s.version
  let sv := if v = "" then versionInitial log else v
  if sv = "0" then .ok s
  else scanApplyC v (scanFrom sv log) s

/-- The scan callback of `Producer.sync`: like the consumer's, but also
tracking `latestVersion`, which is updated only when an event is actually
applied (it stays at its Go zero value `""` when every event is
skipped). -/
def scanApplyP (v : String) :
    List RawEvent → DBState → String → Except Err (String × DBState)
  | [], s, latest => .ok (latest, s)
  | e :: es, s, latest =>
    if v = e.version then scanApplyP v es s latest
    else
      match Producer.apply s e with
      | .error err => .error err
      | .ok s' => scanApplyP v es s' e.version

/-- `Producer.sync`: the in-transaction sync of the producer, returning
the latest version it synchronized to alongside the updated state.  On
the empty-log path it returns the sentinel `"0"` itself. -/
def Producer.sync (log : List RawEvent) (s : DBState) : Except Err (String × DBState) :=
  let v := s.version
  let sv := if v = "" then versionInitial log else v
  if sv = "0" then .ok (sv, s)
  else scanApplyP v (scanFrom sv log) s ""

/-- `ValidateInput`: reject an empty object identifier, then a negative
quantity. -/
def ValidateInput (object : String) (quantity : Int) : Except Err Unit :=
  if object = "" then .error .invalidObject
  else if quantity < 0 then .error .invalidQuantity
  else .ok ()

deriving instance DecidableEq for Except

/-- The outcome of a producer request: the returned error value, the
local database state after the enclosing transaction committed or was
discarded, and the log after any append. -/
structure Outcome where
  result : Except Err Unit
  db : DBState
  log : List RawEvent
deriving DecidableEq

/-- `Producer.Put`: validate, encode a `put` event and append it
unconditionally.  No database transaction is opened and the projection is
never read or written on this path. -/
def Producer.Put (log : List RawEvent) (s : DBState) (object : String)
    (quantity : Int) : Outcome :=
  match ValidateInput object quantity with
  | .error e => { result := .error e, db := s, log := log }
  | .ok _ =>
    match Encode { Operation := "put", Object := object, Quantity := quantity } with
    | .error e => { result := .error e, db := s, log := log }
    | .ok ed => { result := .ok (), db := s, log := appendToLog log ed }

/-- The `buildEvent` closure of `Producer.Take`: read the current
quantity inside the transaction, abort with the insufficient-quantity
error when the take would drive it negative, otherwise encode the `take`
event. -/
def buildTakeEvent (s : DBState) (object : String) (quantity : Int) :
    Except Err EventData :=
  if GetQuantity s object - quantity < 0 then .error .insuffQuant
  else Encode { Operation := "take", Object := object, Quantity := quantity }

/-- Modelled from the spec: `TryAppend(expected, buildEvent, onConflict)`
specialized to the take request.  The event is built first (a build error
aborts with no side effects); when the expected version still equals the
log head the event is appended, otherwise `onConflict` — the producer's
in-transaction resync — is invoked and the append is retried against the
version it returns.  The loop is unbounded in the source; `fuel` bounds
the recursion depth of the model. -/
def tryAppendTake : Nat → List RawEvent → String → DBState → String → Int →
    Except Err (DBState × List RawEvent)
  | 0, _, _, _, _, _ => .error .retriesExhausted
  | fuel + 1, log, expected, s, object, quantity =>
    match buildTakeEvent s object quantity with
    | .error e => .error e
    | .ok ed =>
      if expected = headVersion log then .ok (s, appendToLog log ed)
      else
        match Producer.sync log s with
        | .error e => .error e
        | .ok (v', s') => tryAppendTake fuel log v' s' object quantity

/-- `Producer.Take`: validate, then inside one read-write transaction read
the projected version and run the conditional append.  On error the
transaction is discarded: the database state reverts, and no event was
appended (every error path precedes the append). -/
def Producer.Take (fuel : Nat) (log : List RawEvent) (s : DBState)
    (object : String) (quantity : Int) : Outcome :=
  match ValidateInput object quantity with
  | .error e => { result := .error e, db := s, log := log }
  | .ok _ =>
    match tryAppendTake fuel log s.version s object quantity with
    | .error e => { result := .error e, db := s, log := log }
    | .ok (s', log') => { result := .ok (), db := s', log := log' }

/-- `Tx.scanPrefix` over the object entries: the first error returned by
the callback — including `ErrAbortScan` — is returned immediately by the
inner loop; the post-loop filter that would have converted `ErrAbortScan`
to `nil` only sees the outer (never assigned) error variable and is dead
code. -/
def scanPfx : List (String × Int) → (String → Int → Except Err Unit) →
    Except Err Unit
  | [], _ => .ok ()
  | (k, v) :: t, fn =>
    match fn k v with
    | .error e => .error e
    | .ok _ => scanPfx t fn

/-- `Tx.ScanObjects`: scan the `o_`-prefixed entries, handing the
callback the stripped key and the parsed quantity. -/
def ScanObjects (s : DBState) (fn : String → Int → Except Err Unit) :
    Except Err Unit :=
  scanPfx s.objects fn

/-- `Consumer.ScanDB`: within a read-only transaction, report the
projected version (stopping with a nil error when `onVersion` declines),
then enumerate objects, converting an `onObject` halt into
`ErrAbortScan`.  `DB.WithinTx` returns the body's error after discarding
the transaction. -/
def Consumer.ScanDB (s : DBState) (onVersion : String → Bool)
    (onObject : String → Int → Bool) : Except Err Unit :=
  if onVersion s.version = false then .ok ()
  else
    ScanObjects s fun object quantity =>
      if onObject object quantity then .ok () else .error .abortScan

/-- The `latestVersion` accumulator of `Producer.sync` after a run of
applied (never-skipped) events: the version of the last event, or the
incoming accumulator when no event was delivered. -/
def lastVersion (es : List RawEvent) (latest : String) : String :=
  match es.getLast? with
  | none => latest
  | some e => e.version

/-- The retained-quantity invariant of the projection mapping. -/
def QuantInv (s : DBState) : Prop :=
  ∀ o q, alGet s.objects o = some q → 1 ≤ q

/-! Helper lemmas shared by the claim theorems. -/

theorem alGet_alSet (l : List (String × Int)) (k q : String) (v : Int) :
    alGet (alSet l k v) q = if q = k then some v else alGet l q := by
  induction l with
  | nil => simp [alSet, alGet]
  | cons hd t ih =>
    obtain ⟨a, b⟩ := hd
    simp only [alSet]
    by_cases hka : k = a
    · simp only [if_pos hka, alGet]
      by_cases hqk : q = k
      · simp [hqk]
      · have hqa : ¬q = a := fun h => hqk (h.trans hka.symm)
        simp [hqk, hqa]
    · simp only [if_neg hka, alGet, ih]
      by_cases hqa : q = a
      · have hqk : ¬q = k := fun h => hka ((hqa.symm.trans h).symm)
        have hak : ¬a = k := fun h => hka h.symm
        simp [hqa, hqk, hak]
      · simp [hqa]

theorem alGet_alDelete (l : List (String × Int)) (k q : String) :
    alGet (alDelete l k) q = if q = k then none else alGet l q := by
  induction l with
  | nil => simp [alDelete, alGet]
  | cons hd t ih =>
    obtain ⟨a, b⟩ := hd
    simp only [alDelete]
    by_cases hka : k = a
    · simp only [if_pos hka, ih, alGet]
      by_cases hqk : q = k
      · simp [hqk]
      · have hqa : ¬q = a := fun h => hqk (h.trans hka.symm)
        simp [hqk, hqa]
    · simp only [if_neg hka, alGet, ih]
      by_cases hqa : q = a
      · have hqk : ¬q = k := fun h => hka ((hqa.symm.trans h).symm)
        have hak : ¬a = k := fun h => hka h.symm
        simp [hqa, hqk, hak]
      · simp [hqa]

theorem decode_ok {e : RawEvent} {ev : Event}
    (h : Decode e = .ok ev) :
    (e.label = "put" ∨ e.label = "take") ∧
      ev = { Operation := e.label, Object := e.payload.object,
             Quantity := e.payload.quantity } := by
  unfold Decode at h
  split at h
  · rename_i hl
    exact ⟨hl, by injection h with h; exact h.symm⟩
  · exact absurd h (by simp)

theorem decode_fail {e : RawEvent}
    (h1 : e.label ≠ "put") (h2 : e.label ≠ "take") :
    Decode e = .error .unknownEventType := by
  unfold Decode
  simp [h1, h2]

/-- Characterization of a successful apply: the decoded event's object is
deleted or re-stored according to the computed quantity, and the marker
becomes the event's version. -/
theorem applyC_ok (s : DBState) {e : RawEvent} {ev : Event}
    (h : Decode e = .ok ev) :
    Consumer.apply s e =
      if newQuantityOf s ev < 1 then
        .ok { version := e.version, objects := alDelete s.objects ev.Object }
      else
        .ok { version := e.version,
              objects := alSet s.objects ev.Object (newQuantityOf s ev) } := by
  obtain ⟨hlab, hev⟩ := decode_ok h
  subst hev
  unfold Consumer.apply
  rw [h]
  rcases hlab with hl | hl <;>
    simp [newQuantityOf, hl, SetProjectionVersion, txDelete, txSet]

theorem apply_eq (s : DBState) (e : RawEvent) :
    Producer.apply s e = Consumer.apply s e := rfl

theorem applyC_version {s s' : DBState} {e : RawEvent}
    (h : Consumer.apply s e = .ok s') : s'.version = e.version := by
  cases hdec : Decode e with
  | error err =>
    unfold Consumer.apply at h
    rw [hdec] at h
    exact absurd h (by simp)
  | ok ev =>
    rw [applyC_ok s hdec] at h
    split at h <;>
      · injection h with h
        subst h
        rfl

theorem replay_eq (es : List RawEvent) (s : DBState) :
    Producer.replay s es = Consumer.replay s es := by
  induction es generalizing s with
  | nil => rfl
  | cons e t ih =>
    simp only [Producer.replay, Consumer.replay, apply_eq]
    cases Consumer.apply s e with
    | error err => rfl
    | ok s' => exact ih s'

theorem replay_append (es1 es2 : List RawEvent) (s : DBState) :
    Consumer.replay s (es1 ++ es2) =
      match Consumer.replay s es1 with
      | .error err => .error err
      | .ok s' => Consumer.replay s' es2 := by
  induction es1 generalizing s with
  | nil => rfl
  | cons e t ih =>
    simp only [List.cons_append, Consumer.replay]
    cases Consumer.apply s e with
    | error err => rfl
    | ok s' => exact ih s'

theorem replayFoldl_error (es : List RawEvent) (err : Err) :
    es.foldl replayStep (.error err) = .error err := by
  induction es with
  | nil => rfl
  | cons e t ih => simpa [replayStep] using ih

theorem replayFoldl_eq (es : List RawEvent) (s : DBState) :
    replayFoldl s es = Consumer.replay s es := by
  induction es generalizing s with
  | nil => rfl
  | cons e t ih =>
    simp only [replayFoldl, List.foldl, Consumer.replay, replayStep]
    cases Consumer.apply s e with
    | error err => exact replayFoldl_error t err
    | ok s' => exact ih s'

theorem applyC_inv {s s' : DBState} {e : RawEvent}
    (hinv : QuantInv s) (h : Consumer.apply s e = .ok s') : QuantInv s' := by
  cases hdec : Decode e with
  | error err =>
    unfold Consumer.apply at h
    rw [hdec] at h
    exact absurd h (by simp)
  | ok ev =>
    rw [applyC_ok s hdec] at h
    split at h <;> rename_i hq <;> injection h with h <;> subst h <;>
      intro o q hget <;> simp only [alGet_alDelete, alGet_alSet] at hget
    · split at hget
      · exact absurd hget (by simp)
      · exact hinv o q hget
    · split at hget
      · injection hget with hget
        omega
      · exact hinv o q hget

theorem replayC_inv {s s' : DBState} {es : List RawEvent}
    (hinv : QuantInv s) (h : Consumer.replay s es = .ok s') : QuantInv s' := by
  induction es generalizing s with
  | nil =>
    unfold Consumer.replay at h
    injection h with h
    exact h ▸ hinv
  | cons e t ih =>
    unfold Consumer.replay at h
    split at h
    · exact absurd h (by simp)
    · rename_i s1 happ
      exact ih (applyC_inv hinv happ) h

theorem getLast?_snoc {α : Type} (xs : List α) (x : α) :
    (xs ++ [x]).getLast? = some x := by
  induction xs with
  | nil => rfl
  | cons y ys ih =>
    rw [List.cons_append]
    cases h : ys ++ [x] with
    | nil => exact absurd h (by simp)
    | cons a l => rw [List.getLast?_cons_cons, ← h, ih]

theorem headVersion_snoc (xs : List RawEvent) (x : RawEvent) :
    headVersion (xs ++ [x]) = x.version := by
  unfold headVersion
  rw [getLast?_snoc]

theorem lastVersion_cons (e : RawEvent) (t : List RawEvent) (latest : String) :
    lastVersion (e :: t) latest = lastVersion t e.version := by
  cases t with
  | nil => rfl
  | cons c t' =>
    rw [lastVersion, lastVersion, List.getLast?_cons_cons]
    cases h : (c :: t').getLast? with
    | none => exact absurd h (by simp)
    | some a => rfl

theorem scanFrom_not_mem {v : String} {l1 : List RawEvent} (l2 : List RawEvent)
    (h : ∀ e ∈ l1, e.version ≠ v) : scanFrom v (l1 ++ l2) = scanFrom v l2 := by
  induction l1 with
  | nil => rfl
  | cons e t ih =>
    rw [List.cons_append, scanFrom, if_neg (h e (by simp))]
    exact ih fun x hx => h x (by simp [hx])

theorem scanFrom_cons {v : String} {b : RawEvent} (l2 : List RawEvent)
    (hb : b.version = v) : scanFrom v (b :: l2) = b :: l2 := by
  rw [scanFrom, if_pos hb]

theorem scanApplyP_no_skip {v : String} (es : List RawEvent)
    (s : DBState) (latest : String) (h : ∀ e ∈ es, e.version ≠ v) :
    scanApplyP v es s latest =
      match Producer.replay s es with
      | .error err => .error err
      | .ok s' => .ok (lastVersion es latest, s') := by
  induction es generalizing s latest with
  | nil => rfl
  | cons e t ih =>
    have hv : ¬v = e.version := fun hh => h e (by simp) hh.symm
    rw [scanApplyP, if_neg hv]
    simp only [Producer.replay]
    cases Producer.apply s e with
    | error err => rfl
    | ok s' =>
      dsimp only
      rw [ih s' e.version fun x hx => h x (by simp [hx])]
      simp only [lastVersion_cons]

theorem scanApplyC_no_skip {v : String} (es : List RawEvent) (s : DBState)
    (h : ∀ e ∈ es, e.version ≠ v) :
    scanApplyC v es s = Consumer.replay s es := by
  induction es generalizing s with
  | nil => rfl
  | cons e t ih =>
    have hv : ¬v = e.version := fun hh => h e (by simp) hh.symm
    rw [scanApplyC, if_neg hv]
    simp only [Consumer.replay]
    cases Consumer.apply s e with
    | error err => rfl
    | ok s' =>
      dsimp only
      exact ih s' fun x hx => h x (by simp [hx])

theorem replayC_snoc_version {s s2 : DBState} {xs : List RawEvent}
    {x : RawEvent} (h : Consumer.replay s (xs ++ [x]) = .ok s2) :
    s2.version = x.version := by
  rw [replay_append] at h
  split at h
  · exact absurd h (by simp)
  · rename_i s' hs'
    unfold Consumer.replay at h
    cases happ : Consumer.apply s' x with
    | error err => rw [happ] at h; exact absurd h (by simp)
    | ok s'' =>
      rw [happ] at h
      unfold Consumer.replay at h
      injection h with h
      exact h ▸ applyC_version happ

/-! The claim theorems. -/

/-- C1: replaying any put/take event sequence from the empty projection
retains only objects whose stored quantity is at least 1, and an apply
step whose computed quantity drops below 1 deletes the object's entry
rather than storing it. -/
theorem C1_replay_invariant :
    (∀ (es : List RawEvent) (s' : DBState),
        Consumer.replay emptyState es = .ok s' →
        ∀ o q, alGet s'.objects o = some q → 1 ≤ q) ∧
    (∀ (s : DBState) (e : RawEvent) (ev : Event),
        Decode e = .ok ev → newQuantityOf s ev < 1 →
        Consumer.apply s e =
          .ok { version := e.version,
                objects := alDelete s.objects ev.Object }) := by
  constructor
  · intro es s' h o q hget
    have hbase : QuantInv emptyState := by
      intro o q hq
      simp [emptyState, alGet] at hq
    exact replayC_inv hbase h o q hget
  · intro s e ev hdec hq
    rw [applyC_ok s hdec, if_pos hq]

/-- C1 witness: a concrete replay (Scenario A then a partial take) whose
retained entry has quantity 3 ≥ 1, and a concrete underflowing take whose
entry is deleted. -/
theorem C1_replay_invariant_witness :
    (Consumer.replay emptyState
        [⟨"1", "put", ⟨"apple", 5⟩⟩, ⟨"2", "take", ⟨"apple", 2⟩⟩]
      = .ok ⟨"2", [("apple", 3)]⟩) ∧
    (1 : Int) ≤ 3 ∧
    (Decode ⟨"1", "take", ⟨"apple", 5⟩⟩ = .ok ⟨"take", "apple", 5⟩ ∧
     newQuantityOf emptyState ⟨"take", "apple", 5⟩ < 1) ∧
    Consumer.apply emptyState ⟨"1", "take", ⟨"apple", 5⟩⟩
      = .ok { version := "1", objects := alDelete emptyState.objects "apple" } :=
  ⟨by decide,
   C1_replay_invariant.1
     [⟨"1", "put", ⟨"apple", 5⟩⟩, ⟨"2", "take", ⟨"apple", 2⟩⟩]
     ⟨"2", [("apple", 3)]⟩ (by decide) "apple" 3 (by decide),
   ⟨by decide, by decide⟩,
   C1_replay_invariant.2 emptyState ⟨"1", "take", ⟨"apple", 5⟩⟩
     ⟨"take", "apple", 5⟩ (by decide) (by decide)⟩

/-- C2: applying an event to a state computes the new quantity as
Q - quantity for a take and Q + quantity for a put (with Q = 0 when the
object is unseen), deletes the object's entry when the result is below 1
and stores it otherwise, leaves every other object untouched, and
persists the event's version as the marker. -/
theorem C2_apply_step (s : DBState) (e : RawEvent) (ev : Event)
    (hdec : Decode e = .ok ev) :
    ∃ s', Consumer.apply s e = .ok s' ∧
      s'.version = e.version ∧
      (alGet s.objects ev.Object = none → GetQuantity s ev.Object = 0) ∧
      (ev.Operation = "take" →
        newQuantityOf s ev = GetQuantity s ev.Object - ev.Quantity) ∧
      (ev.Operation = "put" →
        newQuantityOf s ev = GetQuantity s ev.Object + ev.Quantity) ∧
      (newQuantityOf s ev < 1 → alGet s'.objects ev.Object = none) ∧
      (1 ≤ newQuantityOf s ev →
        alGet s'.objects ev.Object = some (newQuantityOf s ev)) ∧
      (∀ o, o ≠ ev.Object → alGet s'.objects o = alGet s.objects o) := by
  have hzero : alGet s.objects ev.Object = none → GetQuantity s ev.Object = 0 := by
    intro h
    rw [GetQuantity, h]
    rfl
  have htake : ev.Operation = "take" →
      newQuantityOf s ev = GetQuantity s ev.Object - ev.Quantity := by
    intro h
    rw [newQuantityOf, if_pos h]
  have hput : ev.Operation = "put" →
      newQuantityOf s ev = GetQuantity s ev.Object + ev.Quantity := by
    intro h
    rw [newQuantityOf, if_neg (h ▸ (by decide : ("put":String) ≠ "take")), if_pos h]
  rw [applyC_ok s hdec]
  by_cases hq : newQuantityOf s ev < 1
  · rw [if_pos hq]
    refine ⟨_, rfl, rfl, hzero, htake, hput, ?_, ?_, ?_⟩
    · intro _
      simp [alGet_alDelete]
    · intro h
      omega
    · intro o ho
      simp only [alGet_alDelete, if_neg ho]
  · rw [if_neg hq]
    refine ⟨_, rfl, rfl, hzero, htake, hput, ?_, ?_, ?_⟩
    · intro h
      omega
    · intro _
      simp [alGet_alSet]
    · intro o ho
      simp only [alGet_alSet, if_neg ho]

/-- C2 witness: Scenario A (put 5 apples onto the empty projection yields
a stored quantity of 5 under the event's version). -/
theorem C2_apply_step_witness :
    (Decode ⟨"1", "put", ⟨"apple", 5⟩⟩ = .ok ⟨"put", "apple", 5⟩) ∧
    (∃ s', Consumer.apply emptyState ⟨"1", "put", ⟨"apple", 5⟩⟩ = .ok s' ∧
      s'.version = "1" ∧
      (alGet emptyState.objects "apple" = none →
        GetQuantity emptyState "apple" = 0) ∧
      (("put":String) = "take" →
        newQuantityOf emptyState ⟨"put", "apple", 5⟩
          = GetQuantity emptyState "apple" - 5) ∧
      (("put":String) = "put" →
        newQuantityOf emptyState ⟨"put", "apple", 5⟩
          = GetQuantity emptyState "apple" + 5) ∧
      (newQuantityOf emptyState ⟨"put", "apple", 5⟩ < 1 →
        alGet s'.objects "apple" = none) ∧
      (1 ≤ newQuantityOf emptyState ⟨"put", "apple", 5⟩ →
        alGet s'.objects "apple"
          = some (newQuantityOf emptyState ⟨"put", "apple", 5⟩)) ∧
      (∀ o, o ≠ "apple" → alGet s'.objects o = alGet emptyState.objects o)) :=
  ⟨by decide,
   C2_apply_step emptyState ⟨"1", "put", ⟨"apple", 5⟩⟩ ⟨"put", "apple", 5⟩
     (by decide)⟩

/-- C3: a take request whose current projected quantity minus the
requested quantity is negative returns the insufficient-quantity error;
no event is appended and the database state is unchanged (the enclosing
transaction is discarded). -/
theorem C3_take_insufficient (fuel : Nat) (log : List RawEvent)
    (s : DBState) (object : String) (quantity : Int)
    (hobj : object ≠ "") (hq : 0 ≤ quantity)
    (hins : GetQuantity s object - quantity < 0) :
    Producer.Take (fuel + 1) log s object quantity
      = { result := .error .insuffQuant, db := s, log := log } := by
  have hval : ValidateInput object quantity = .ok () := by
    rw [ValidateInput, if_neg hobj, if_neg (by omega : ¬quantity < 0)]
  have hbuild : buildTakeEvent s object quantity = .error .insuffQuant := by
    rw [buildTakeEvent, if_pos hins]
  rw [Producer.Take, hval]
  dsimp only
  rw [tryAppendTake, hbuild]

/-- C3 witness: Scenario C — taking 3 apples from the empty projection
fails with the insufficient-quantity error, appending nothing. -/
theorem C3_take_insufficient_witness :
    ("apple" ≠ "" ∧ (0 : Int) ≤ 3 ∧ GetQuantity emptyState "apple" - 3 < 0) ∧
    Producer.Take 1 [] emptyState "apple" 3
      = { result := .error .insuffQuant, db := emptyState, log := [] } :=
  ⟨⟨by decide, by decide, by decide⟩,
   C3_take_insufficient 0 [] emptyState "apple" 3 (by decide) (by decide)
     (by decide)⟩

/-- C4: the sync scan skips exactly the event whose version equals the
marker read at the start of the pass and applies every other scanned
event (persisting its version); rerunning either sync when the marker
already equals the log head leaves the state unchanged. -/
theorem C4_sync_idempotent (log front : List RawEvent) (b : RawEvent)
    (s : DBState) (hlog : log = front ++ [b]) (hv : s.version = b.version)
    (hfr : ∀ e ∈ front, e.version ≠ b.version)
    (hne : b.version ≠ "") (hn0 : b.version ≠ "0") :
    Consumer.Sync log s = .ok s ∧
    Producer.sync log s = .ok ("", s) ∧
    (∀ (v : String) (e : RawEvent) (es : List RawEvent) (st : DBState),
        scanApplyC v (e :: es) st =
          if v = e.version then scanApplyC v es st
          else
            match Consumer.apply st e with
            | .error err => .error err
            | .ok st' => scanApplyC v es st') ∧
    (∀ (st st' : DBState) (e : RawEvent),
        Consumer.apply st e = .ok st' → st'.version = e.version) := by
  subst hlog
  have hne' : ¬s.version = "" := fun h => hne (hv.symm.trans h)
  have hn0' : ¬s.version = "0" := fun h => hn0 (hv.symm.trans h)
  have hscan : scanFrom s.version (front ++ [b]) = [b] := by
    rw [scanFrom_not_mem [b] fun e he hh => hfr e he (hh.trans hv)]
    exact scanFrom_cons [] hv.symm
  refine ⟨?_, ?_, fun v e es st => rfl, fun st st' e h => applyC_version h⟩
  · simp only [Consumer.Sync, if_neg hne', if_neg hn0', hscan]
    rw [scanApplyC, if_pos hv]
    rfl
  · simp only [Producer.sync, if_neg hne', if_neg hn0', hscan]
    rw [scanApplyP, if_pos hv]
    rfl

/-- C4 witness: a one-event log whose marker already points at the head;
both syncs leave the state untouched. -/
theorem C4_sync_idempotent_witness :
    ([(⟨"1", "put", ⟨"apple", 5⟩⟩ : RawEvent)]
        = ([] : List RawEvent) ++ [⟨"1", "put", ⟨"apple", 5⟩⟩] ∧
      (DBState.mk "1" [("apple", 5)]).version = "1" ∧
      ("1" : String) ≠ "" ∧ ("1" : String) ≠ "0") ∧
    Consumer.Sync [⟨"1", "put", ⟨"apple", 5⟩⟩] ⟨"1", [("apple", 5)]⟩
      = .ok ⟨"1", [("apple", 5)]⟩ ∧
    Producer.sync [⟨"1", "put", ⟨"apple", 5⟩⟩] ⟨"1", [("apple", 5)]⟩
      = .ok ("", ⟨"1", [("apple", 5)]⟩) :=
  ⟨⟨by decide, by decide, by decide, by decide⟩,
   (C4_sync_idempotent [⟨"1", "put", ⟨"apple", 5⟩⟩] [] ⟨"1", "put", ⟨"apple", 5⟩⟩
      ⟨"1", [("apple", 5)]⟩ rfl rfl (by simp) (by decide) (by decide)).1,
   (C4_sync_idempotent [⟨"1", "put", ⟨"apple", 5⟩⟩] [] ⟨"1", "put", ⟨"apple", 5⟩⟩
      ⟨"1", [("apple", 5)]⟩ rfl rfl (by simp) (by decide) (by decide)).2.1⟩

/-- C5: replay is compositional (batching a sequence equals feeding it
one event at a time), the fold formulation agrees with the recursive one,
and the consumer's and producer's apply functions — hence their replays
of the same log — are identical. -/
theorem C5_replay_deterministic :
    (∀ (s : DBState) (es1 es2 : List RawEvent),
        Consumer.replay s (es1 ++ es2) =
          match Consumer.replay s es1 with
          | .error err => .error err
          | .ok s' => Consumer.replay s' es2) ∧
    (∀ (s : DBState) (es : List RawEvent),
        replayFoldl s es = Consumer.replay s es) ∧
    (∀ (s : DBState) (e : RawEvent),
        Consumer.apply s e = Producer.apply s e) ∧
    (∀ es : List RawEvent,
        Consumer.replay emptyState es = Producer.replay emptyState es) :=
  ⟨fun s es1 es2 => replay_append es1 es2 s,
   fun s es => replayFoldl_eq es s,
   fun s e => (apply_eq s e).symm,
   fun es => (replay_eq es emptyState).symm⟩

/-- C6: a valid put appends its event unconditionally — the outcome never
depends on the stored quantities and the database is returned unchanged —
and a successful no-conflict take also leaves the database unchanged: the
write path never updates projection quantities. -/
theorem C6_write_path_frame (log : List RawEvent) (s : DBState)
    (object : String) (quantity : Int)
    (hobj : object ≠ "") (hq : 0 ≤ quantity) :
    Producer.Put log s object quantity
      = { result := .ok (), db := s,
          log := appendToLog log ⟨"put", ⟨object, quantity⟩⟩ } ∧
    (∀ fuel : Nat, s.version = headVersion log →
      0 ≤ GetQuantity s object - quantity →
      Producer.Take (fuel + 1) log s object quantity
        = { result := .ok (), db := s,
            log := appendToLog log ⟨"take", ⟨object, quantity⟩⟩ }) := by
  have hval : ValidateInput object quantity = .ok () := by
    rw [ValidateInput, if_neg hobj, if_neg (by omega : ¬quantity < 0)]
  constructor
  · rw [Producer.Put, hval]
    dsimp only
    rw [Encode, if_pos (Or.inl rfl)]
  · intro fuel hhead hins
    have hbuild : buildTakeEvent s object quantity
        = .ok ⟨"take", ⟨object, quantity⟩⟩ := by
      rw [buildTakeEvent, if_neg (by omega : ¬GetQuantity s object - quantity < 0),
        Encode, if_pos (Or.inr rfl)]
    rw [Producer.Take, hval]
    dsimp only
    rw [tryAppendTake, hbuild]
    dsimp only
    rw [if_pos hhead]

/-- C6 witness: putting 5 apples appends without touching the database,
and taking 2 apples with the marker at the log head succeeds without
touching it either. -/
theorem C6_write_path_frame_witness :
    ("apple" ≠ "" ∧ (0 : Int) ≤ 5) ∧
    Producer.Put [] emptyState "apple" 5
      = { result := .ok (), db := emptyState,
          log := appendToLog [] ⟨"put", ⟨"apple", 5⟩⟩ } ∧
    Producer.Take 1 [⟨"1", "put", ⟨"apple", 5⟩⟩] ⟨"1", [("apple", 5)]⟩
        "apple" 2
      = { result := .ok (), db := ⟨"1", [("apple", 5)]⟩,
          log := appendToLog [⟨"1", "put", ⟨"apple", 5⟩⟩]
            ⟨"take", ⟨"apple", 2⟩⟩ } :=
  ⟨⟨by decide, by decide⟩,
   (C6_write_path_frame [] emptyState "apple" 5 (by decide) (by decide)).1,
   (C6_write_path_frame [⟨"1", "put", ⟨"apple", 5⟩⟩] ⟨"1", [("apple", 5)]⟩
      "apple" 2 (by decide) (by decide)).2 0 (by decide) (by decide)⟩

/-- C7: when a take conflicts because the head advanced past the marker,
the resync applies exactly the events logged after the marker (within the
same transaction-threaded state), advances the marker to the head,
returns the head as the version to retry against, and the take retries
against that version with the refreshed state. -/
theorem C7_take_conflict_resync (log l1 mid : List RawEvent)
    (b last2 : RawEvent) (s s2 : DBState) (object : String)
    (quantity : Int) (fuel : Nat)
    (hlog : log = l1 ++ b :: (mid ++ [last2]))
    (hv : s.version = b.version)
    (hne : s.version ≠ "") (hn0 : s.version ≠ "0")
    (hl1 : ∀ e ∈ l1, e.version ≠ s.version)
    (hl2 : ∀ e ∈ mid ++ [last2], e.version ≠ s.version)
    (hrep : Producer.replay s (mid ++ [last2]) = .ok s2)
    (hq : 0 ≤ GetQuantity s object - quantity) :
    Producer.sync log s = .ok (last2.version, s2) ∧
    s2.version = last2.version ∧
    last2.version = headVersion log ∧
    s.version ≠ headVersion log ∧
    tryAppendTake (fuel + 1) log s.version s object quantity
      = tryAppendTake fuel log last2.version s2 object quantity := by
  subst hlog
  have hassoc : l1 ++ b :: (mid ++ [last2]) = (l1 ++ b :: mid) ++ [last2] := by
    simp
  have hhead : headVersion (l1 ++ b :: (mid ++ [last2])) = last2.version := by
    rw [hassoc, headVersion_snoc]
  have hnehead : s.version ≠ headVersion (l1 ++ b :: (mid ++ [last2])) := by
    rw [hhead]
    exact fun h => hl2 last2 (by simp) h.symm
  have hlast : lastVersion (mid ++ [last2]) "" = last2.version := by
    rw [lastVersion, getLast?_snoc]
  have hsync : Producer.sync (l1 ++ b :: (mid ++ [last2])) s
      = .ok (last2.version, s2) := by
    simp only [Producer.sync, if_neg hne, if_neg hn0]
    rw [scanFrom_not_mem (b :: (mid ++ [last2])) hl1,
      scanFrom_cons (mid ++ [last2]) hv.symm, scanApplyP, if_pos hv,
      scanApplyP_no_skip (mid ++ [last2]) s "" fun e he => hl2 e he, hrep,
      hlast]
  have hver : s2.version = last2.version :=
    replayC_snoc_version ((replay_eq (mid ++ [last2]) s).symm.trans hrep)
  have hbuild : buildTakeEvent s object quantity
      = .ok ⟨"take", ⟨object, quantity⟩⟩ := by
    rw [buildTakeEvent, if_neg (by omega : ¬GetQuantity s object - quantity < 0),
      Encode, if_pos (Or.inr rfl)]
  refine ⟨hsync, hver, hhead.symm, hnehead, ?_⟩
  rw [tryAppendTake, hbuild]
  dsimp only
  rw [if_neg hnehead, hsync]

/-- C7 witness: marker at version 1 of a two-event log; the conflicting
take resyncs through the interleaved put, advances the marker to the head
(version 2), and retries against it. -/
theorem C7_take_conflict_resync_witness :
    (Producer.replay ⟨"1", [("apple", 5)]⟩ [⟨"2", "put", ⟨"apple", 7⟩⟩]
        = .ok ⟨"2", [("apple", 12)]⟩ ∧
      0 ≤ GetQuantity ⟨"1", [("apple", 5)]⟩ "apple" - 3) ∧
    Producer.sync [⟨"1", "put", ⟨"apple", 5⟩⟩, ⟨"2", "put", ⟨"apple", 7⟩⟩]
        ⟨"1", [("apple", 5)]⟩
      = .ok ("2", ⟨"2", [("apple", 12)]⟩) ∧
    tryAppendTake 2 [⟨"1", "put", ⟨"apple", 5⟩⟩, ⟨"2", "put", ⟨"apple", 7⟩⟩]
        "1" ⟨"1", [("apple", 5)]⟩ "apple" 3
      = tryAppendTake 1 [⟨"1", "put", ⟨"apple", 5⟩⟩, ⟨"2", "put", ⟨"apple", 7⟩⟩]
          "2" ⟨"2", [("apple", 12)]⟩ "apple" 3 :=
  ⟨⟨by decide, by decide⟩,
   (C7_take_conflict_resync
      [⟨"1", "put", ⟨"apple", 5⟩⟩, ⟨"2", "put", ⟨"apple", 7⟩⟩]
      [] [] ⟨"1", "put", ⟨"apple", 5⟩⟩ ⟨"2", "put", ⟨"apple", 7⟩⟩
      ⟨"1", [("apple", 5)]⟩ ⟨"2", [("apple", 12)]⟩ "apple" 3 1
      rfl rfl (by decide) (by decide) (by simp) (by decide) (by decide)
      (by decide)).1,
   (C7_take_conflict_resync
      [⟨"1", "put", ⟨"apple", 5⟩⟩, ⟨"2", "put", ⟨"apple", 7⟩⟩]
      [] [] ⟨"1", "put", ⟨"apple", 5⟩⟩ ⟨"2", "put", ⟨"apple", 7⟩⟩
      ⟨"1", [("apple", 5)]⟩ ⟨"2", [("apple", 12)]⟩ "apple" 3 1
      rfl rfl (by decide) (by decide) (by simp) (by decide) (by decide)
      (by decide)).2.2.2.2⟩

/-- C8: decoding fails with the unknown-event-kind error for every wire
label other than put/take, encoding fails likewise for every other
operation tag, and for the accepted labels decoding sets the operation to
the label and reads object and quantity from the payload. -/
theorem C8_codec_labels :
    (∀ r : RawEvent, r.label ≠ "put" → r.label ≠ "take" →
        Decode r = .error .unknownEventType) ∧
    (∀ ev : Event, ev.Operation ≠ "put" → ev.Operation ≠ "take" →
        Encode ev = .error .unknownEventType) ∧
    (∀ r : RawEvent, r.label = "put" ∨ r.label = "take" →
        Decode r = .ok { Operation := r.label, Object := r.payload.object,
                         Quantity := r.payload.quantity }) := by
  refine ⟨fun r h1 h2 => decode_fail h1 h2, fun ev h1 h2 => ?_, fun r h => ?_⟩
  · rw [Encode, if_neg (by tauto)]
  · rw [Decode, if_pos h]

/-- C8 witness: Scenario D — the label `delete` is rejected by decode,
the operation `delete` is rejected by encode, and a `put` wire event
decodes to the matching domain event. -/
theorem C8_codec_labels_witness :
    (("delete" : String) ≠ "put" ∧ ("delete" : String) ≠ "take") ∧
    Decode ⟨"1", "delete", ⟨"apple", 5⟩⟩ = .error .unknownEventType ∧
    Encode ⟨"delete", "apple", 5⟩ = .error .unknownEventType ∧
    Decode ⟨"1", "put", ⟨"apple", 5⟩⟩ = .ok ⟨"put", "apple", 5⟩ :=
  ⟨⟨by decide, by decide⟩,
   C8_codec_labels.1 ⟨"1", "delete", ⟨"apple", 5⟩⟩ (by decide) (by decide),
   C8_codec_labels.2.1 ⟨"delete", "apple", 5⟩ (by decide) (by decide),
   C8_codec_labels.2.2 ⟨"1", "put", ⟨"apple", 5⟩⟩ (Or.inl rfl)⟩

/-- C9 (counterexample to the claim): halting the object enumeration
early does not complete without error — `ScanDB` surfaces `ErrAbortScan`,
because the shadowed error return inside `Tx.scanPrefix` exits before the
dead `ErrAbortScan` filter, contradicting `ScanDB`'s own doc comment
("ScanDB returns nil immediately if either onVersion or onObject return
false"). -/
theorem C9_scanDB_abort_surfaces :
    Consumer.ScanDB { version := "1", objects := [("apple", 5)] }
        (fun _ => true) (fun _ _ => false)
      = .error .abortScan := by
  rfl

/-- C10: put and take both reject an empty object identifier (before
the quantity is even considered) and a negative quantity, returning the
validation error with the database and log untouched, while a quantity
of exactly zero passes validation. -/
theorem C10_input_validation :
    (∀ (log : List RawEvent) (s : DBState) (fuel : Nat) (quantity : Int),
        Producer.Put log s "" quantity
          = { result := .error .invalidObject, db := s, log := log } ∧
        Producer.Take fuel log s "" quantity
          = { result := .error .invalidObject, db := s, log := log }) ∧
    (∀ (log : List RawEvent) (s : DBState) (fuel : Nat) (object : String)
        (quantity : Int), object ≠ "" → quantity < 0 →
        Producer.Put log s object quantity
          = { result := .error .invalidQuantity, db := s, log := log } ∧
        Producer.Take fuel log s object quantity
          = { result := .error .invalidQuantity, db := s, log := log }) ∧
    (∀ object : String, object ≠ "" → ValidateInput object 0 = .ok ()) := by
  refine ⟨fun log s fuel quantity => ?_,
    fun log s fuel object quantity hobj hneg => ?_, fun object hobj => ?_⟩
  · have hval : ValidateInput "" quantity = .error .invalidObject := by
      rw [ValidateInput, if_pos rfl]
    constructor
    · rw [Producer.Put, hval]
    · rw [Producer.Take, hval]
  · have hval : ValidateInput object quantity = .error .invalidQuantity := by
      rw [ValidateInput, if_neg hobj, if_pos hneg]
    constructor
    · rw [Producer.Put, hval]
    · rw [Producer.Take, hval]
  · rw [ValidateInput, if_neg hobj, if_neg (by omega : ¬(0 : Int) < 0)]

/-- C10 witness: a put with an empty object, a take with quantity -1 and
a validation of quantity 0 at concrete inputs. -/
theorem C10_input_validation_witness :
    Producer.Put [] emptyState "" 5
      = { result := .error .invalidObject, db := emptyState, log := [] } ∧
    ("apple" ≠ "" ∧ (-1 : Int) < 0) ∧
    Producer.Take 1 [] emptyState "apple" (-1)
      = { result := .error .invalidQuantity, db := emptyState, log := [] } ∧
    ValidateInput "apple" 0 = .ok () :=
  ⟨(C10_input_validation.1 [] emptyState 1 5).1,
   ⟨by decide, by decide⟩,
   (C10_input_validation.2.1 [] emptyState 1 "apple" (-1) (by decide)
      (by decide)).2,
   C10_input_validation.2.2 "apple" (by decide)⟩

end EventlogExample
